import Mathlib

/-!
Verification of the Nebula installer's orchestration core against its design
documents.  The installer logic lives in two Inno Setup sources: the backend
design document with its Pascal code blocks (`AddToPath`,
`InstallVSCodeExtension`, `InstallJetBrainsPlugin`, `InstallNeovimSupport`,
`IsUpgrade`, `ShouldInstallExtensions`, `DetectNeovim`) and the shipped
`.iss` script (`[Files]`, `[Registry]`, `[Run]`, `[UninstallDelete]`,
`CheckIDEs`).  Each Pascal routine and script section used by a claim is
embedded below as an executable Lean function over explicit state
(environment strings, a file-system record, a registry list); Delphi string
primitives (`Pos`, one-based substring search with `Pos('', s) = 0`) are
embedded at the character-list level.
-/

namespace Nebula

/-! ## Delphi string primitives, at the character-list level -/

/-- Decides whether `n` is a prefix of `h` (character lists). -/
def isPrefixOfCL : List Char → List Char → Bool
  | [], _ => true
  | _ :: _, [] => false
  | a :: as, b :: bs => a = b && isPrefixOfCL as bs

/-- Decides whether `n` occurs as a contiguous substring of `h`. -/
def isSubstrCL (n : List Char) : List Char → Bool
  | [] => isPrefixOfCL n []
  | c :: t => isPrefixOfCL n (c :: t) || isSubstrCL n t

/-- Delphi `Pos(needle, hay) <> 0`: true when `needle` is nonempty and occurs
as a substring of `hay`.  Delphi's `Pos` returns 0 for an empty needle, so an
empty needle counts as not found. -/
def posFound (needle hay : String) : Bool :=
  !needle.data.isEmpty && isSubstrCL needle.data hay.data

/-! ## PATH mutator -/

/-- Splits a character list at every `;`, keeping empty pieces.  The result is
never empty; splitting the empty list yields `[[]]`. -/
def splitSegsCL : List Char → List (List Char)
  | [] => [[]]
  | c :: rest =>
    if c = ';' then [] :: splitSegsCL rest
    else
      match splitSegsCL rest with
      | [] => [[c]]
      | p :: ps => (c :: p) :: ps

/-- Joins character-list segments with a single `;` between consecutive
segments. -/
def joinSegsCL : List (List Char) → List Char
  | [] => []
  | [x] => x
  | x :: y :: ys => x ++ ';' :: joinSegsCL (y :: ys)

/-- The delimiter-separated segments of an environment-variable value. -/
def splitSegs (s : String) : List String :=
  (splitSegsCL s.data).map String.mk

/-- Rejoins segments with single delimiters. -/
def joinSegs (l : List String) : String :=
  String.mk (joinSegsCL (l.map String.data))

/-- AddToPath from the backend document (src/unnamed/part_000, lines 61-73):
reads the current value, tests `Pos(segment, Path) = 0` (a plain substring
test), and when the substring is absent writes back
`Path + ';' + segment` (unconditional delimiter).  Returns the value of the
variable after the call. -/
def AddToPath (path segment : String) : String :=
  if posFound segment path then path else path ++ ";" ++ segment

/-- True exactly when `AddToPath` performs a registry write. -/
def addToPathWrites (path segment : String) : Bool :=
  !(posFound segment path)

/-- Modelled from the spec: `RemoveSegment(varName, segment)` has no
implementation under src/ (only the design documents describe uninstall-time
PATH restoration); spec.md section 4.2 defines it as: read the current value,
filter out every segment exactly equal to `segment`, rejoin the remaining
segments with a single delimiter, write back. -/
def RemoveSegment (path segment : String) : String :=
  joinSegs ((splitSegs path).filter (fun s => s ≠ segment))

/-! ## State ledger, build constants and upgrade reconciliation -/

/-- Build constant `AppVersion` from the shipped script (src/unnamed/part_005,
line 5). -/
def buildProductVersion : String := "1.0.0"

/-- Build constant `ExtVersion` from the shipped script (src/unnamed/part_005,
line 9); the backend document's `ShouldInstallExtensions` compares against
this constant. -/
def buildExtensionVersion : String := "1.0.0"

/-- The persisted install record (registry values under HKCU Software Nebula:
InstallPath, Version, ExtensionVersion, InstallDate). -/
structure InstallRecord where
  installPath : String
  productVersion : String
  extensionVersion : String
  installDate : String
deriving DecidableEq

/-- IsUpgrade from the backend document (src/unnamed/part_000, lines 252-255):
true when the ledger key exists. -/
def IsUpgrade (record : Option InstallRecord) : Bool :=
  record.isSome

/-- The three reconciliation states named by the spec. -/
inductive ReconcilerState
  | FreshInstall
  | UpgradeSameVersion
  | UpgradeNewVersion
deriving DecidableEq

/-- Modelled from the spec: the Upgrade Reconciler state machine
(spec.md section 4.4) is not present as code under src/ (the code only has
`IsUpgrade` and `ShouldInstallExtensions`); spec.md defines: no prior record
is `FreshInstall`; a record whose `productVersion` equals the build constant
is `UpgradeSameVersion`; otherwise `UpgradeNewVersion`. -/
def reconcile (record : Option InstallRecord) : ReconcilerState :=
  match record with
  | none => .FreshInstall
  | some r =>
    if r.productVersion = buildProductVersion then .UpgradeSameVersion
    else .UpgradeNewVersion

/-- ShouldInstallExtensions from the backend document (src/unnamed/part_000,
lines 267-274): reads the ledger's `ExtensionVersion` value and returns
whether it differs from the build constant. -/
def ShouldInstallExtensions (installedVer : String) : Bool :=
  installedVer ≠ buildExtensionVersion

/-- Number of editor targets the Extension Dispatcher invokes on an upgrade:
all selected targets when `ShouldInstallExtensions` holds, none otherwise. -/
def dispatcherInvocations (r : InstallRecord) (selectedTargets : Nat) : Nat :=
  if ShouldInstallExtensions r.extensionVersion then selectedTargets else 0

/-! ## File-system model -/

/-- A file system fragment: the set of existing directories and an
association list of files (path, content); the first entry for a path is its
content. -/
structure FileSystem where
  dirs : List String
  files : List (String × String)
deriving DecidableEq

/-- Inno Setup `DirExists`: exact-name membership.  `DirExists` performs no
wildcard expansion, so a pattern containing `*` is compared literally. -/
def dirExists (fs : FileSystem) (p : String) : Bool :=
  fs.dirs.contains p

/-- Inno Setup `FileExists` on the file-system model. -/
def fileExists (fs : FileSystem) (p : String) : Bool :=
  fs.files.any (fun e => e.1 = p)

/-- Content of a file, first-match lookup. -/
def lookupFile : List (String × String) → String → Option String
  | [], _ => none
  | e :: t, p => if e.1 = p then some e.2 else lookupFile t p

/-- Inno Setup `SaveStringToFile` with Append=False: creates the file or
replaces its content, touching nothing else. -/
def saveStringToFile (fs : FileSystem) (p c : String) : FileSystem :=
  { fs with files := (p, c) :: fs.files }

/-! ## JetBrains plugin strategy -/

/-- The fixed product-name prefixes from `InstallJetBrainsPlugin`
(src/unnamed/part_000, line 151). -/
def jetBrainsIDEs : List String :=
  ["IntelliJIdea", "CLion", "Rider", "PyCharm", "WebStorm", "GoLand"]

/-- The wildcard plugin-directory pattern the loop builds for one product
prefix (src/unnamed/part_000, line 155): note the literal `*`. -/
def jetBrainsPluginPattern (localAppData ide : String) : String :=
  localAppData ++ "\\JetBrains\\" ++ ide ++ "*\\plugins"

/-- InstallJetBrainsPlugin from the backend document (src/unnamed/part_000,
lines 144-163): for each fixed prefix, tests `DirExists` on the wildcard
pattern and, when it exists, copies the bundled jar there.  Returns the list
of destination paths written by `FileCopy`. -/
def InstallJetBrainsPlugin (localAppData : String) (fs : FileSystem) : List String :=
  (jetBrainsIDEs.filter
    (fun ide => dirExists fs (jetBrainsPluginPattern localAppData ide))).map
    (fun ide => jetBrainsPluginPattern localAppData ide ++ "\\nebula-jetbrains.jar")

/-! ## Neovim strategy -/

/-- The Neovim config directory `{userappdata}\nvim\`
(src/unnamed/part_000, line 177). -/
def nvimConfigDir (userAppData : String) : String :=
  userAppData ++ "\\nvim\\"

/-- The single helper file the strategy writes
(src/unnamed/part_000, line 178). -/
def nvimSnippetPath (userAppData : String) : String :=
  nvimConfigDir userAppData ++ "nebula-setup.lua"

/-- The user's primary Neovim configuration file. -/
def nvimInitPath (userAppData : String) : String :=
  nvimConfigDir userAppData ++ "init.lua"

/-- The helper file's content (src/unnamed/part_000, lines 183-188). -/
def nvimSnippetContent : String :=
  "-- Nebula language support\r\n-- Add this to your init.lua:\r\n-- require(\"nebula-setup\")\r\nvim.filetype.add(\x7b extension = \x7b na = \"nebula\" \x7d \x7d)"

/-- InstallNeovimSupport from the backend document (src/unnamed/part_000,
lines 173-191): only when the config directory exists, save the snippet file;
otherwise do nothing. -/
def InstallNeovimSupport (userAppData : String) (fs : FileSystem) : FileSystem :=
  if dirExists fs (nvimConfigDir userAppData) then
    saveStringToFile fs (nvimSnippetPath userAppData) nvimSnippetContent
  else fs

/-- Per-target dispatch outcomes named by the spec. -/
inductive DispatchOutcome
  | Succeeded
  | FailedIgnored
  | SkippedNotDetected
  | SkippedByFlag
  | Informational
deriving DecidableEq

/-- Modelled from the spec: outcome recording for the Neovim target
(spec.md sections 3 and 4.3) is not present as code under src/ (the Pascal
procedure returns nothing); the spec assigns `SkippedNotDetected` when the
config directory does not exist. -/
def neovimOutcome (userAppData : String) (fs : FileSystem) : DispatchOutcome :=
  if dirExists fs (nvimConfigDir userAppData) then .Succeeded
  else .SkippedNotDetected

/-! ## External process invocation -/

/-- Inno Setup `Exec` wait conditions. -/
inductive TWait
  | ewNoWait
  | ewWaitUntilTerminated
  | ewWaitUntilIdle
deriving DecidableEq

/-- One `Exec` invocation as written in the source: program, parameters, wait
condition. -/
structure ExecCall where
  program : String
  params : String
  wait : TWait
deriving DecidableEq

/-- Inno Setup's `Exec` takes no timeout argument: a call that waits for the
child (`ewWaitUntilTerminated`, `ewWaitUntilIdle`) blocks until the child
acts, with no fixed upper bound; only a non-waiting call has one. -/
def hasFixedWaitBound (w : TWait) : Bool :=
  match w with
  | .ewNoWait => true
  | _ => false

/-- The fixed per-user and per-machine `code.cmd` locations probed by
`InstallVSCodeExtension` (src/unnamed/part_000, lines 124-127). -/
def vsUserCodeCmd (localAppData : String) : String :=
  localAppData ++ "\\Programs\\Microsoft VS Code\\bin\\code.cmd"

/-- Fixed per-machine VS Code CLI location. -/
def vsMachineCodeCmd : String :=
  "C:\\Program Files\\Microsoft VS Code\\bin\\code.cmd"

/-- InstallVSCodeExtension from the backend document (src/unnamed/part_000,
lines 118-134): resolve `code.cmd` per-user first, else per-machine, else
exit silently; then `Exec(CodePath, '--install-extension ...', ...,
ewWaitUntilTerminated, ResultCode)` and ignore `ResultCode`.  Returns the
list of `Exec` calls performed and whether the procedure completes without
raising (always true; `exitCode` is the child's exit code and is read into
`ResultCode` but never used). -/
def InstallVSCodeExtension (localAppData : String) (fs : FileSystem)
    (exitCode : Int) : List ExecCall × Bool :=
  let _ := exitCode
  if fileExists fs (vsUserCodeCmd localAppData) then
    ([{ program := vsUserCodeCmd localAppData,
        params := "--install-extension nebula-lang.nebula --force",
        wait := .ewWaitUntilTerminated }], true)
  else if fileExists fs vsMachineCodeCmd then
    ([{ program := vsMachineCodeCmd,
        params := "--install-extension nebula-lang.nebula --force",
        wait := .ewWaitUntilTerminated }], true)
  else ([], true)

/-- The `Exec('where', 'nvim', ...)` PATH-lookup fallback in the backend
document's `DetectNeovim` (src/unnamed/part_000, line 101). -/
def whereNvimExec : ExecCall :=
  { program := "where", params := "nvim", wait := .ewWaitUntilTerminated }

/-! ## The [Run] entry and silent mode -/

/-- Flags carried by the shipped script's single `[Run]` entry. -/
inductive RunFlag
  | runhidden
  | nowait
  | skipifsilent
deriving DecidableEq

/-- A `[Run]` section entry: parameters, flags, governing task. -/
structure RunEntry where
  params : String
  flags : List RunFlag
  task : String
deriving DecidableEq

/-- The `[Run]` entry of the shipped script (src/unnamed/part_005, line 78):
`Parameters: "--install-extension nebula-lang.nebula --force";
Flags: runhidden nowait skipifsilent; Tasks: vscode; Check: IsVSCodeDetected`. -/
def vscodeRunEntry : RunEntry :=
  { params := "--install-extension nebula-lang.nebula --force"
  , flags := [.runhidden, .nowait, .skipifsilent]
  , task := "vscode" }

/-- A `[Run]` entry waits for the launched process unless `nowait` is among
its flags. -/
def runEntryWaits (e : RunEntry) : Bool :=
  !(e.flags.contains .nowait)

/-- Setup UI modes: normal, `/SILENT`, `/VERYSILENT`. -/
inductive SilentMode
  | normal
  | silent
  | verySilent
deriving DecidableEq

/-- Both silent flavours count as a silent install. -/
def isSilentMode (m : SilentMode) : Bool :=
  match m with
  | .normal => false
  | _ => true

/-- Inno Setup `[Run]` execution semantics for one entry: it runs iff its
governing task is selected, its `Check` function passes, and it is not
suppressed by `skipifsilent` in a silent or very-silent install. -/
def runEntryExecutes (e : RunEntry) (m : SilentMode)
    (taskSelected checkResult : Bool) : Bool :=
  taskSelected && checkResult &&
    !(isSilentMode m && e.flags.contains .skipifsilent)

/-! ## IDE detection (shipped script) -/

/-- Read-only state consulted by detection: which files and directories
exist, and whether a `where nvim` PATH lookup would succeed.  The last field
exists so that independence from the PATH lookup can be stated; `CheckIDEs`
never reads it. -/
structure DetectState where
  existingFiles : List String
  existingDirs : List String
  whereNvimFound : Bool
deriving DecidableEq

/-- `FileExists` against the detection state. -/
def fileExistsD (st : DetectState) (p : String) : Bool :=
  st.existingFiles.contains p

/-- `DirExists` against the detection state. -/
def dirExistsD (st : DetectState) (p : String) : Bool :=
  st.existingDirs.contains p

/-- The four wizard-level detection variables set by `CheckIDEs`. -/
structure IDEDetection where
  vscodeFound : Bool
  vscodeBin : String
  neovimFound : Bool
  jetbrainsFound : Bool
deriving DecidableEq

/-- Fixed per-user Neovim binary location probed by `CheckIDEs`
(src/unnamed/part_005, line 431). -/
def nvimFixedPath (localAppData : String) : String :=
  localAppData ++ "\\nvim\\bin\\nvim.exe"

/-- JetBrains Toolbox directory probed by `CheckIDEs`
(src/unnamed/part_005, line 432). -/
def jbToolboxPath (localAppData : String) : String :=
  localAppData ++ "\\JetBrains\\Toolbox"

/-- CheckIDEs from the shipped script (src/unnamed/part_005, lines 421-433):
VS Code per-user location first, else per-machine; `VSCodeBin` is set only
when found (it starts out empty); Neovim and JetBrains each probe a single
fixed location.  No PATH lookup is performed. -/
def CheckIDEs (localAppData : String) (st : DetectState) : IDEDetection :=
  let vsFound := fileExistsD st (vsUserCodeCmd localAppData) ||
                 fileExistsD st vsMachineCodeCmd
  { vscodeFound := vsFound
  , vscodeBin :=
      if vsFound then
        if fileExistsD st (vsUserCodeCmd localAppData) then
          vsUserCodeCmd localAppData
        else vsMachineCodeCmd
      else ""
  , neovimFound := fileExistsD st (nvimFixedPath localAppData)
  , jetbrainsFound := dirExistsD st (jbToolboxPath localAppData) }

/-- DetectNeovim from the backend document (src/unnamed/part_000, lines
98-102): fixed location, else the `where nvim` PATH lookup.  Kept for
comparison with `CheckIDEs`; the shipped script does not use it. -/
def DetectNeovimDoc (localAppData : String) (st : DetectState) : Bool :=
  fileExistsD st (nvimFixedPath localAppData) || st.whereNvimFound

/-! ## Uninstall -/

/-- Full system state touched by uninstall: file system plus the HKCU
registry subkeys present. -/
structure SystemState where
  fs : FileSystem
  registry : List String
deriving DecidableEq

/-- True when `p` lies strictly inside directory `d`. -/
def isUnder (d p : String) : Bool :=
  isPrefixOfCL (d.data ++ [Char.ofNat 92]) p.data

/-- The files uninstall removes: the uninstaller's recorded `[Files]` entries
for this install (`{app}\bin\nebula.exe`, the stdlib files copied this run,
`LICENSE`, `README.md` — src/unnamed/part_005, lines 44-49) plus the explicit
`[UninstallDelete]` file entries (`{app}\bin\nebula.exe`, `{app}\install.log`
— src/unnamed/part_005, lines 81-82). -/
def uninstallFileManifest (app : String) (stdFiles : List String) : List String :=
  (app ++ "\\bin\\nebula.exe") :: (app ++ "\\install.log") ::
  (app ++ "\\LICENSE") :: (app ++ "\\README.md") :: stdFiles

/-- The `dirifempty` entries of `[UninstallDelete]`
(src/unnamed/part_005, lines 83-86), in order. -/
def uninstallDirs (app : String) : List String :=
  [app ++ "\\bin", app ++ "\\lib\\std", app ++ "\\lib", app]

/-- A directory counts as empty when no remaining file or other directory
lies inside it. -/
def dirIsEmpty (files : List (String × String)) (dirs : List String)
    (d : String) : Bool :=
  files.all (fun e => !(isUnder d e.1)) && dirs.all (fun x => !(isUnder d x))

/-- `Type: dirifempty` semantics: remove the directory only when it is in
fact empty. -/
def removeDirIfEmpty (fs : FileSystem) (d : String) : FileSystem :=
  if dirIsEmpty fs.files fs.dirs d then
    { fs with dirs := fs.dirs.filter (fun x => x ≠ d) }
  else fs

/-- The ledger key removed by `uninsdeletekey`
(src/unnamed/part_005, line 66). -/
def nebulaLedgerKey : String := "Software\\Nebula"

/-- Uninstall per the shipped script: delete the recorded file manifest,
process the four `dirifempty` entries in order, delete the
`Software\Nebula` ledger key (`uninsdeletekey`).  Nothing else is touched. -/
def Uninstall (app : String) (stdFiles : List String)
    (st : SystemState) : SystemState :=
  let manifest := uninstallFileManifest app stdFiles
  let files1 := st.fs.files.filter (fun e => !(manifest.contains e.1))
  let fs1 : FileSystem := { dirs := st.fs.dirs, files := files1 }
  let fs2 := (uninstallDirs app).foldl removeDirIfEmpty fs1
  { fs := fs2, registry := st.registry.filter (fun k => k ≠ nebulaLedgerKey) }

/-! ## Concrete states used by the closed theorems -/

/-- Ledger record of the upgrade-skip scenario: productVersion and
extensionVersion both 1.0.0. -/
def ledgerSameVersion : InstallRecord :=
  { installPath := "C:\\Users\\X\\AppData\\Roaming\\Nebula"
  , productVersion := "1.0.0"
  , extensionVersion := "1.0.0"
  , installDate := "2026-01-17" }

/-- A machine with one JetBrains product directory, `IntelliJIdea2023.2`,
holding a `plugins` subdirectory. -/
def jbBugFS : FileSystem :=
  { dirs := ["C:\\Users\\X\\AppData\\Local\\JetBrains\\IntelliJIdea2023.2",
             "C:\\Users\\X\\AppData\\Local\\JetBrains\\IntelliJIdea2023.2\\plugins"]
  , files := [] }

/-- A user with an existing Neovim config directory and an `init.lua`. -/
def nvimFSW : FileSystem :=
  { dirs := ["U\\nvim\\"]
  , files := [("U\\nvim\\init.lua", "user config")] }

/-- A machine with the per-user VS Code CLI present. -/
def vsFSW : FileSystem :=
  { dirs := []
  , files := [("C:\\Users\\X\\AppData\\Local\\Programs\\Microsoft VS Code\\bin\\code.cmd", "")] }

/-- Pre-uninstall state: the managed install under `C:\N`, one stray user
file inside the install root, a JetBrains plugin artifact and a Neovim
snippet outside it, and one unrelated registry key. -/
def uninstallStateW : SystemState :=
  { fs :=
    { dirs := ["C:\\N", "C:\\N\\bin", "C:\\N\\lib", "C:\\N\\lib\\std", "C:\\U\\plugins"]
    , files := [("C:\\N\\bin\\nebula.exe", "bin"), ("C:\\N\\install.log", "log"),
                ("C:\\N\\lib\\std\\core.na", "std"), ("C:\\N\\keep.txt", "user"),
                ("C:\\U\\plugins\\nebula-jetbrains.jar", "jar"),
                ("C:\\U\\nvim\\nebula-setup.lua", "snippet")] }
  , registry := [nebulaLedgerKey, "Software\\Other"] }

/-- Detection state with both the per-user and the per-machine VS Code CLI
present. -/
def detectStateW : DetectState :=
  { existingFiles := [vsUserCodeCmd "L", vsMachineCodeCmd]
  , existingDirs := []
  , whereNvimFound := false }

/-- Detection state with no fixed location present but a succeeding
`where nvim` PATH lookup. -/
def detectStateNone : DetectState :=
  { existingFiles := [], existingDirs := [], whereNvimFound := true }

/-! ## Helper lemmas -/

theorem strData_append (s t : String) : (s ++ t).data = s.data ++ t.data := by
  cases s; cases t; rfl

theorem strExt {s t : String} (h : s.data = t.data) : s = t := by
  cases s; cases t; exact congrArg String.mk h

theorem strMk_data (s : String) : String.mk s.data = s := by
  cases s; rfl

theorem strData_ne_nil {s : String} (h : s ≠ "") : s.data ≠ [] := by
  intro hd
  exact h (strExt hd)

theorem splitSegsCL_ne_nil (l : List Char) : splitSegsCL l ≠ [] := by
  induction l with
  | nil => simp [splitSegsCL]
  | cons c rest ih =>
    simp only [splitSegsCL]
    split
    · simp
    · cases h : splitSegsCL rest with
      | nil => exact absurd h ih
      | cons p ps => simp [h]

theorem joinSegsCL_splitSegsCL (l : List Char) :
    joinSegsCL (splitSegsCL l) = l := by
  induction l with
  | nil => rfl
  | cons c rest ih =>
    simp only [splitSegsCL]
    split
    · rename_i hc
      subst hc
      cases h : splitSegsCL rest with
      | nil => exact absurd h (splitSegsCL_ne_nil rest)
      | cons p ps =>
        rw [h] at ih
        simp [joinSegsCL, ih]
    · cases h : splitSegsCL rest with
      | nil => exact absurd h (splitSegsCL_ne_nil rest)
      | cons p ps =>
        rw [h] at ih
        cases ps with
        | nil => simpa [joinSegsCL] using congrArg (c :: ·) ih
        | cons q qs => simpa [joinSegsCL] using congrArg (c :: ·) ih

theorem isPrefixOfCL_self_append (l t : List Char) :
    isPrefixOfCL l (l ++ t) = true := by
  induction l with
  | nil => rfl
  | cons a as ih => simp [isPrefixOfCL, ih]

theorem isSubstrCL_of_isPrefixOfCL {n h : List Char}
    (hp : isPrefixOfCL n h = true) : isSubstrCL n h = true := by
  cases h with
  | nil => simpa [isSubstrCL] using hp
  | cons c t => simp [isSubstrCL, hp]

theorem isSubstrCL_append_left {n t : List Char} (pre : List Char)
    (hs : isSubstrCL n t = true) : isSubstrCL n (pre ++ t) = true := by
  induction pre with
  | nil => simpa using hs
  | cons c cs ih => simp [isSubstrCL, ih]

theorem isSubstrCL_suffix (pre n : List Char) :
    isSubstrCL n (pre ++ n) = true :=
  isSubstrCL_append_left pre
    (isSubstrCL_of_isPrefixOfCL (by simpa using isPrefixOfCL_self_append n []))

theorem isSubstrCL_of_mem_join {p : List Char} {ps : List (List Char)}
    (hm : p ∈ ps) : isSubstrCL p (joinSegsCL ps) = true := by
  induction ps with
  | nil => cases hm
  | cons x rest ih =>
    rcases List.mem_cons.mp hm with hx | hr
    · subst hx
      cases rest with
      | nil =>
        exact isSubstrCL_of_isPrefixOfCL
          (by simpa using isPrefixOfCL_self_append p [])
      | cons y ys =>
        exact isSubstrCL_of_isPrefixOfCL
          (by simpa [joinSegsCL] using
            isPrefixOfCL_self_append p (';' :: joinSegsCL (y :: ys)))
    · cases rest with
      | nil => cases hr
      | cons y ys =>
        have := ih hr
        simpa [joinSegsCL] using
          isSubstrCL_append_left (x ++ [';']) (by simpa using this)

theorem posFound_of_mem_splitSegs {path S : String} (hS : S ≠ "")
    (hm : S ∈ splitSegs path) : posFound S path = true := by
  rcases List.mem_map.mp hm with ⟨l, hl, hlS⟩
  have hdata : S.data = l := by rw [← hlS]
  have hsub : isSubstrCL S.data (joinSegsCL (splitSegsCL path.data)) = true := by
    rw [hdata]
    exact isSubstrCL_of_mem_join hl
  rw [joinSegsCL_splitSegsCL] at hsub
  have hne : S.data ≠ [] := strData_ne_nil hS
  simp [posFound, hsub, List.isEmpty_iff, hne]

theorem splitSegsCL_append_delim (a b : List Char) :
    splitSegsCL (a ++ ';' :: b) = splitSegsCL a ++ splitSegsCL b := by
  induction a with
  | nil => simp [splitSegsCL]
  | cons c cs ih =>
    by_cases hc : c = ';'
    · subst hc
      simp [splitSegsCL, ih]
    · simp only [List.cons_append, splitSegsCL, if_neg hc, List.append_eq]
      rw [ih]
      cases h : splitSegsCL cs with
      | nil => exact absurd h (splitSegsCL_ne_nil cs)
      | cons p ps => simp [h]

theorem splitSegsCL_no_delim {l : List Char}
    (h : l.all (fun c => !(c == ';')) = true) : splitSegsCL l = [l] := by
  induction l with
  | nil => rfl
  | cons c cs ih =>
    simp only [List.all_cons, Bool.and_eq_true] at h
    have hc : ¬(c = ';') := by
      intro hc
      subst hc
      simp at h
    simp only [splitSegsCL, if_neg hc, ih h.2]

theorem lookupFile_filter_not_mem {l : List (String × String)}
    {m : List String} {p : String} (h : m.contains p = false) :
    lookupFile (l.filter (fun e => !(m.contains e.1))) p = lookupFile l p := by
  have hp : p ∉ m := by simpa using h
  induction l with
  | nil => rfl
  | cons e t ih =>
    by_cases hm : e.1 ∈ m
    · have he : e.1 ≠ p := fun hep => hp (hep ▸ hm)
      simp [List.filter, lookupFile, hm, he]
      simpa using ih
    · by_cases he : e.1 = p
      · simp [List.filter, lookupFile, hm, he, hp]
      · simp [List.filter, lookupFile, hm, he]
        simpa using ih

theorem removeDirIfEmpty_files (fs : FileSystem) (d : String) :
    (removeDirIfEmpty fs d).files = fs.files := by
  unfold removeDirIfEmpty
  split <;> rfl

theorem foldl_removeDirIfEmpty_files (ds : List String) (fs : FileSystem) :
    (ds.foldl removeDirIfEmpty fs).files = fs.files := by
  induction ds generalizing fs with
  | nil => rfl
  | cons d rest ih =>
    simp only [List.foldl_cons, ih, removeDirIfEmpty_files]

theorem foldl_removeDirIfEmpty_removed {ds : List String}
    {fs : FileSystem} {d : String} (hin : d ∈ fs.dirs)
    (hout : d ∉ (ds.foldl removeDirIfEmpty fs).dirs) :
    d ∈ ds ∧ fs.files.all (fun e => !(isUnder d e.1)) = true := by
  induction ds generalizing fs with
  | nil => exact absurd hin hout
  | cons d' rest ih =>
    simp only [List.foldl_cons] at hout
    by_cases hd : d ∈ (removeDirIfEmpty fs d').dirs
    · have hres := ih hd hout
      refine ⟨List.mem_cons_of_mem _ hres.1, ?_⟩
      have hf := removeDirIfEmpty_files fs d'
      rw [hf] at hres
      exact hres.2
    · unfold removeDirIfEmpty at hd
      by_cases hemp : dirIsEmpty fs.files fs.dirs d' = true
      · rw [if_pos hemp] at hd
        simp only [List.mem_filter] at hd
        have hdd : d = d' := by
          by_contra hne
          exact hd ⟨hin, by simpa using hne⟩
        subst hdd
        unfold dirIsEmpty at hemp
        simp only [Bool.and_eq_true] at hemp
        exact ⟨List.mem_cons_self _ _, hemp.1⟩
      · rw [if_neg hemp] at hd
        exact absurd hin hd

/-! ## Claim C1 -/

/-- C1 counterexample: with current value `C:\Nebula\bin2` and segment
`C:\Nebula\bin`, no segment equals the segment (it occurs only as a proper
substring of a longer segment), yet `AddToPath` does not append and performs
no write — refuting the claim that it still appends in that situation. -/
theorem addToPath_substring_counterexample :
    "C:\\Nebula\\bin" ∉ splitSegs "C:\\Nebula\\bin2" ∧
    posFound "C:\\Nebula\\bin" "C:\\Nebula\\bin2" = true ∧
    AddToPath "C:\\Nebula\\bin2" "C:\\Nebula\\bin" = "C:\\Nebula\\bin2" ∧
    addToPathWrites "C:\\Nebula\\bin2" "C:\\Nebula\\bin" = false := by
  decide

/-- C1 (amended): for a nonempty segment S, `AddToPath` performs no write
when some existing segment equals S exactly, and whenever it does append it
writes `value ; S` and no existing segment equalled S; but the test is a
plain substring test, so an S occurring only inside a longer segment also
suppresses the append (see the counterexample). -/
theorem addToPath_exact_match_amended (path S : String) (hS : S ≠ "") :
    (S ∈ splitSegs path →
      AddToPath path S = path ∧ addToPathWrites path S = false) ∧
    (addToPathWrites path S = true →
      S ∉ splitSegs path ∧ AddToPath path S = path ++ ";" ++ S) := by
  constructor
  · intro hm
    have hpf := posFound_of_mem_splitSegs hS hm
    exact ⟨by simp [AddToPath, hpf], by simp [addToPathWrites, hpf]⟩
  · intro hw
    have hpf : posFound S path = false := by
      simpa [addToPathWrites] using hw
    refine ⟨fun hm => ?_, by simp [AddToPath, hpf]⟩
    have := posFound_of_mem_splitSegs hS hm
    rw [hpf] at this
    cases this

/-- C1 witness: concrete instance of the amended theorem. -/
theorem addToPath_exact_match_witness :
    "B" ∉ splitSegs "A" ∧ AddToPath "A" "B" = "A" ++ ";" ++ "B" :=
  (addToPath_exact_match_amended "A" "B" (by decide)).2 (by decide)

/-! ## Claim C2 -/

/-- C2 counterexample: starting from the value `A;` (trailing delimiter),
adding `B` yields `A;;B` — a doubled delimiter that was not present before,
and an empty segment in the split — refuting the claim that no doubled or
missing delimiters are introduced regardless of a trailing delimiter. -/
theorem addToPath_delimiter_counterexample :
    AddToPath "A;" "B" = "A;;B" ∧
    posFound ";;" "A;" = false ∧
    posFound ";;" (AddToPath "A;" "B") = true ∧
    splitSegs (AddToPath "A;" "B") = ["A", "", "B"] := by
  decide

/-- C2 (amended): for a nonempty, delimiter-free segment S, calling twice
yields the same final value as calling once; and when the initial value does
not contain S as a substring and splits without empty segments (so it is
nonempty and has no trailing delimiter), the result splits into the original
segments followed by exactly one occurrence of S, with no empty segments.
With an empty initial value or a trailing delimiter the write introduces an
empty segment (see the counterexample). -/
theorem addToPath_idempotent_amended (p S : String) (hS : S ≠ "") :
    AddToPath (AddToPath p S) S = AddToPath p S ∧
    (S.data.all (fun c => !(c == ';')) = true →
     posFound S p = false → "" ∉ splitSegs p →
      splitSegs (AddToPath p S) = splitSegs p ++ [S] ∧
      (splitSegs (AddToPath p S)).count S = 1 ∧
      "" ∉ splitSegs (AddToPath p S)) := by
  have hsuffix : ∀ q : String, posFound S (q ++ ";" ++ S) = true := by
    intro q
    have hsub : isSubstrCL S.data (q.data ++ ';' :: S.data) = true :=
      isSubstrCL_append_left q.data (isSubstrCL_suffix [';'] S.data)
    simp [posFound, hsub, List.isEmpty_iff, strData_ne_nil hS]
  have hidem : AddToPath (AddToPath p S) S = AddToPath p S := by
    by_cases hpf : posFound S p = true
    · simp [AddToPath, hpf]
    · have hpf' : posFound S p = false := by simpa using hpf
      have h1 : AddToPath p S = p ++ ";" ++ S := by simp [AddToPath, hpf']
      rw [h1]
      simp [AddToPath, hsuffix p]
  refine ⟨hidem, fun hnd hpf hne => ?_⟩
  have h1 : AddToPath p S = p ++ ";" ++ S := by simp [AddToPath, hpf]
  have hdata : (p ++ ";" ++ S).data = p.data ++ ';' :: S.data := by
    rw [strData_append, strData_append, List.append_assoc]
    rfl
  have hsplit : splitSegs (AddToPath p S) = splitSegs p ++ [S] := by
    rw [h1]
    unfold splitSegs
    rw [hdata, splitSegsCL_append_delim, splitSegsCL_no_delim hnd]
    simp [strMk_data]
  have hSmem : S ∉ splitSegs p := by
    intro hm
    have := posFound_of_mem_splitSegs hS hm
    rw [hpf] at this
    cases this
  refine ⟨hsplit, ?_, ?_⟩
  · rw [hsplit, List.count_append, List.count_eq_zero.mpr hSmem]
    simp
  · rw [hsplit]
    intro hmem
    rcases List.mem_append.mp hmem with hmem | hmem
    · exact hne hmem
    · exact hS (List.mem_singleton.mp hmem).symm

/-- C2 witness: concrete instance of the amended theorem. -/
theorem addToPath_idempotent_witness :
    AddToPath (AddToPath "A" "B") "B" = AddToPath "A" "B" ∧
    splitSegs (AddToPath "A" "B") = splitSegs "A" ++ ["B"] ∧
    (splitSegs (AddToPath "A" "B")).count "B" = 1 := by
  have h := addToPath_idempotent_amended "A" "B" (by decide)
  have h2 := h.2 (by decide) (by decide) (by decide)
  exact ⟨h.1, h2.1, h2.2.1⟩

/-! ## Claim C3 -/

/-- C3: round trip — from `C:\Windows\System32`, AddToPath with the Nebula
bin segment yields exactly the two-segment value, and the spec's
RemoveSegment on that value returns exactly the original. -/
theorem pathRoundTrip_ok :
    AddToPath "C:\\Windows\\System32"
      "C:\\Users\\X\\AppData\\Roaming\\Nebula\\bin" =
      "C:\\Windows\\System32;C:\\Users\\X\\AppData\\Roaming\\Nebula\\bin" ∧
    RemoveSegment
      "C:\\Windows\\System32;C:\\Users\\X\\AppData\\Roaming\\Nebula\\bin"
      "C:\\Users\\X\\AppData\\Roaming\\Nebula\\bin" =
      "C:\\Windows\\System32" := by
  decide

/-! ## Claim C4 -/

/-- C4: with a prior record, the reconciler state is `UpgradeSameVersion`
exactly when the recorded product version equals the build constant
(otherwise `UpgradeNewVersion`); the Extension Dispatcher runs on an upgrade
iff the recorded extension version differs from the build constant; and in
the 1.0.0/1.0.0 ledger scenario against build constants 1.0.0/1.0.0 the
state is `UpgradeSameVersion` and the Dispatcher records zero invocations. -/
theorem upgradeReconciler_ok (r : InstallRecord) (n : Nat) :
    (reconcile (some r) = .UpgradeSameVersion ↔
      r.productVersion = buildProductVersion) ∧
    (reconcile (some r) = .UpgradeNewVersion ↔
      r.productVersion ≠ buildProductVersion) ∧
    (ShouldInstallExtensions r.extensionVersion = true ↔
      r.extensionVersion ≠ buildExtensionVersion) ∧
    (r.productVersion = "1.0.0" → r.extensionVersion = "1.0.0" →
      reconcile (some r) = .UpgradeSameVersion ∧
      ShouldInstallExtensions r.extensionVersion = false ∧
      dispatcherInvocations r n = 0) := by
  by_cases hpv : r.productVersion = buildProductVersion
  · by_cases hev : r.extensionVersion = buildExtensionVersion
    · refine ⟨by simp [reconcile, hpv], by simp [reconcile, hpv],
        by simp [ShouldInstallExtensions, hev], fun _ _ => ?_⟩
      exact ⟨by simp [reconcile, hpv],
        by simp [ShouldInstallExtensions, hev],
        by simp [dispatcherInvocations, ShouldInstallExtensions, hev]⟩
    · refine ⟨by simp [reconcile, hpv], by simp [reconcile, hpv],
        by simp [ShouldInstallExtensions, hev], fun _ h2 => ?_⟩
      exact absurd h2 hev
  · by_cases hev : r.extensionVersion = buildExtensionVersion
    · refine ⟨by simp [reconcile, hpv], by simp [reconcile, hpv],
        by simp [ShouldInstallExtensions, hev], fun h1 _ => ?_⟩
      exact absurd h1 hpv
    · refine ⟨by simp [reconcile, hpv], by simp [reconcile, hpv],
        by simp [ShouldInstallExtensions, hev], fun h1 _ => ?_⟩
      exact absurd h1 hpv

/-- C4 witness: the upgrade-skip scenario from the spec, with five selected
targets. -/
theorem upgradeReconciler_witness :
    reconcile (some ledgerSameVersion) = .UpgradeSameVersion ∧
    ShouldInstallExtensions ledgerSameVersion.extensionVersion = false ∧
    dispatcherInvocations ledgerSameVersion 5 = 0 :=
  (upgradeReconciler_ok ledgerSameVersion 5).2.2.2 (by decide) (by decide)

/-! ## Claim C5 -/

/-- C5: the JetBrains strategy never copies the plugin even when a product
directory matching the prefix `IntelliJIdea` exists with a `plugins`
subdirectory: the loop passes a literal wildcard pattern to `DirExists`,
which matches no real directory name, so the copy list is empty. -/
theorem jetbrains_wildcard_bug :
    InstallJetBrainsPlugin "C:\\Users\\X\\AppData\\Local" jbBugFS = [] ∧
    dirExists jbBugFS
      "C:\\Users\\X\\AppData\\Local\\JetBrains\\IntelliJIdea2023.2\\plugins" = true ∧
    isPrefixOfCL ("IntelliJIdea").data ("IntelliJIdea2023.2").data = true ∧
    "IntelliJIdea" ∈ jetBrainsIDEs := by
  decide

/-! ## Claim C6 -/

/-- C6: the Neovim strategy writes the single helper file iff the config
directory exists; when it does, the directory set is unchanged, the helper
file holds the snippet, every other path — `init.lua` in particular — is
untouched; when it does not, nothing changes and the outcome is
`SkippedNotDetected`. -/
theorem neovim_additive_ok (ua : String) (fs : FileSystem) :
    (dirExists fs (nvimConfigDir ua) = false →
      InstallNeovimSupport ua fs = fs ∧
      neovimOutcome ua fs = .SkippedNotDetected) ∧
    (dirExists fs (nvimConfigDir ua) = true →
      (InstallNeovimSupport ua fs).dirs = fs.dirs ∧
      lookupFile (InstallNeovimSupport ua fs).files (nvimSnippetPath ua) =
        some nvimSnippetContent ∧
      (∀ q, q ≠ nvimSnippetPath ua →
        lookupFile (InstallNeovimSupport ua fs).files q =
          lookupFile fs.files q) ∧
      lookupFile (InstallNeovimSupport ua fs).files (nvimInitPath ua) =
        lookupFile fs.files (nvimInitPath ua)) := by
  constructor
  · intro hd
    exact ⟨by simp [InstallNeovimSupport, hd],
      by simp [neovimOutcome, hd]⟩
  · intro hd
    have hframe : ∀ q, q ≠ nvimSnippetPath ua →
        lookupFile (InstallNeovimSupport ua fs).files q =
          lookupFile fs.files q := by
      intro q hq
      have hne : nvimSnippetPath ua ≠ q := fun h => hq h.symm
      simp only [InstallNeovimSupport, hd, if_true, saveStringToFile]
      simp [lookupFile, hne]
    have hinit : nvimInitPath ua ≠ nvimSnippetPath ua := by
      intro heq
      have hdat := congrArg String.data heq
      rw [nvimInitPath, nvimSnippetPath, strData_append, strData_append] at hdat
      have := List.append_cancel_left hdat
      have hlit : ("init.lua" : String).data ≠
          ("nebula-setup.lua" : String).data := by decide
      exact hlit this
    refine ⟨by simp [InstallNeovimSupport, hd, saveStringToFile],
      ?_, hframe, hframe _ hinit⟩
    simp [InstallNeovimSupport, hd, saveStringToFile, lookupFile]

/-- C6 witness: a user with an existing config directory and an `init.lua`:
the snippet is created and `init.lua` keeps its content. -/
theorem neovim_additive_witness :
    lookupFile (InstallNeovimSupport "U" nvimFSW).files (nvimSnippetPath "U") =
      some nvimSnippetContent ∧
    lookupFile (InstallNeovimSupport "U" nvimFSW).files (nvimInitPath "U") =
      lookupFile nvimFSW.files (nvimInitPath "U") := by
  have h := (neovim_additive_ok "U" nvimFSW).2 (by decide)
  exact ⟨h.2.1, h.2.2.2⟩

/-! ## Claim C7 -/

/-- C7 counterexample: when the per-user `code.cmd` exists, the installer's
extension install performs an `Exec` whose wait condition is
`ewWaitUntilTerminated` — a wait with no fixed upper bound (Inno Setup's
`Exec` has no timeout argument), refuting the claim that every external
editor-CLI invocation has a fixed upper wait bound. -/
theorem boundedWait_counterexample :
    (InstallVSCodeExtension "C:\\Users\\X\\AppData\\Local" vsFSW 0).1 =
      [{ program := vsUserCodeCmd "C:\\Users\\X\\AppData\\Local"
       , params := "--install-extension nebula-lang.nebula --force"
       , wait := .ewWaitUntilTerminated }] ∧
    hasFixedWaitBound TWait.ewWaitUntilTerminated = false := by
  decide

/-- C7 (amended): the invoked process's exit code never affects the
procedure's result or install success, and the `[Run]` entry does not wait
(`nowait`); but the editor-CLI `Exec` calls — the `--install-extension`
call and the `where` command lookup — wait until the child terminates, a
wait with no fixed upper bound. -/
theorem boundedWait_amended (la : String) (fs : FileSystem) (e1 e2 : Int) :
    InstallVSCodeExtension la fs e1 = InstallVSCodeExtension la fs e2 ∧
    (InstallVSCodeExtension la fs e1).2 = true ∧
    ((InstallVSCodeExtension la fs e1).1.all
      (fun c => c.wait == TWait.ewWaitUntilTerminated &&
        !(hasFixedWaitBound c.wait))) = true ∧
    runEntryWaits vscodeRunEntry = false ∧
    whereNvimExec.wait = .ewWaitUntilTerminated ∧
    hasFixedWaitBound whereNvimExec.wait = false := by
  have hb : ∀ e : Int, (InstallVSCodeExtension la fs e).2 = true ∧
      ((InstallVSCodeExtension la fs e).1.all
        (fun c => c.wait == TWait.ewWaitUntilTerminated &&
          !(hasFixedWaitBound c.wait))) = true := by
    intro e
    by_cases h1 : fileExists fs (vsUserCodeCmd la) = true
    · simp [InstallVSCodeExtension, h1, hasFixedWaitBound]
    · have h1f : fileExists fs (vsUserCodeCmd la) = false := by simpa using h1
      by_cases h2 : fileExists fs vsMachineCodeCmd = true
      · simp [InstallVSCodeExtension, h1f, h2, hasFixedWaitBound]
      · have h2f : fileExists fs vsMachineCodeCmd = false := by simpa using h2
        simp [InstallVSCodeExtension, h1f, h2f]
  exact ⟨by simp [InstallVSCodeExtension], (hb e1).1, (hb e1).2,
    by decide, rfl, rfl⟩

/-! ## Claim C8 -/

/-- C8: uninstall removes only the recorded manifest (binary, install.log,
LICENSE, README, the installed stdlib files) — every path outside it,
including IDE plugin artifacts, keeps its content; the four managed
directories are the only directories it may remove and a removed one had
nothing left inside it; the `Software\Nebula` ledger key is deleted and
every other registry key is kept. -/
theorem uninstall_manifest_ok (app : String) (stdFiles : List String)
    (st : SystemState) :
    (∀ p, (uninstallFileManifest app stdFiles).contains p = false →
      lookupFile (Uninstall app stdFiles st).fs.files p =
        lookupFile st.fs.files p) ∧
    (∀ d, d ∈ st.fs.dirs → d ∉ (Uninstall app stdFiles st).fs.dirs →
      d ∈ uninstallDirs app ∧
      ((Uninstall app stdFiles st).fs.files.all
        (fun e => !(isUnder d e.1))) = true) ∧
    (∀ k, k ≠ nebulaLedgerKey →
      (k ∈ (Uninstall app stdFiles st).registry ↔ k ∈ st.registry)) ∧
    nebulaLedgerKey ∉ (Uninstall app stdFiles st).registry := by
  have hfiles : (Uninstall app stdFiles st).fs.files =
      st.fs.files.filter
        (fun e => !((uninstallFileManifest app stdFiles).contains e.1)) := by
    unfold Uninstall
    simp [foldl_removeDirIfEmpty_files]
  have hfs : (Uninstall app stdFiles st).fs =
      (uninstallDirs app).foldl removeDirIfEmpty
        { dirs := st.fs.dirs
        , files := st.fs.files.filter
            (fun e => !((uninstallFileManifest app stdFiles).contains e.1)) } := rfl
  have hreg : (Uninstall app stdFiles st).registry =
      st.registry.filter (fun k => k ≠ nebulaLedgerKey) := rfl
  refine ⟨?_, ?_, ?_, ?_⟩
  · intro p hp
    rw [hfiles]
    exact lookupFile_filter_not_mem hp
  · intro d hin hout
    rw [hfs] at hout
    have h := @foldl_removeDirIfEmpty_removed (uninstallDirs app)
      { dirs := st.fs.dirs
      , files := st.fs.files.filter
          (fun e => !((uninstallFileManifest app stdFiles).contains e.1)) }
      d hin hout
    refine ⟨h.1, ?_⟩
    rw [hfiles]
    exact h.2
  · intro k hk
    rw [hreg]
    simp [List.mem_filter, hk]
  · rw [hreg]
    simp [List.mem_filter]

/-- C8 witness: in the concrete pre-uninstall state, the JetBrains plugin
artifact keeps its content and the unrelated registry key survives. -/
theorem uninstall_manifest_witness :
    lookupFile
      (Uninstall "C:\\N" ["C:\\N\\lib\\std\\core.na"] uninstallStateW).fs.files
      "C:\\U\\plugins\\nebula-jetbrains.jar" =
      lookupFile uninstallStateW.fs.files
        "C:\\U\\plugins\\nebula-jetbrains.jar" ∧
    ("Software\\Other" ∈
      (Uninstall "C:\\N" ["C:\\N\\lib\\std\\core.na"] uninstallStateW).registry ↔
      "Software\\Other" ∈ uninstallStateW.registry) := by
  have h := uninstall_manifest_ok "C:\\N" ["C:\\N\\lib\\std\\core.na"]
    uninstallStateW
  exact ⟨h.1 _ (by decide), h.2.2.1 _ (by decide)⟩

/-! ## Claim C9 -/

/-- C9 counterexample: with no fixed location present but a succeeding
`where nvim` PATH lookup, `CheckIDEs` still reports Neovim as not detected —
the shipped detection consults no PATH-lookup fallback (the fallback exists
only in the design document's `DetectNeovim`). -/
theorem detection_fallback_counterexample :
    (CheckIDEs "L" detectStateNone).neovimFound = false ∧
    detectStateNone.whereNvimFound = true ∧
    DetectNeovimDoc "L" detectStateNone = true := by
  decide

/-- C9 (amended): detection is ordered-first-match over the fixed candidate
lists — per-user before per-machine for VS Code, the winner recorded as
locator; absence of every candidate yields not-detected with an empty
locator; Neovim and JetBrains each probe a single fixed location; and the
result is independent of the PATH lookup, which is never consulted. -/
theorem detection_order_amended (la : String) (st : DetectState) :
    (fileExistsD st (vsUserCodeCmd la) = true →
      (CheckIDEs la st).vscodeFound = true ∧
      (CheckIDEs la st).vscodeBin = vsUserCodeCmd la) ∧
    (fileExistsD st (vsUserCodeCmd la) = false →
     fileExistsD st vsMachineCodeCmd = true →
      (CheckIDEs la st).vscodeFound = true ∧
      (CheckIDEs la st).vscodeBin = vsMachineCodeCmd) ∧
    (fileExistsD st (vsUserCodeCmd la) = false →
     fileExistsD st vsMachineCodeCmd = false →
      (CheckIDEs la st).vscodeFound = false ∧
      (CheckIDEs la st).vscodeBin = "") ∧
    ((CheckIDEs la st).neovimFound = fileExistsD st (nvimFixedPath la)) ∧
    ((CheckIDEs la st).jetbrainsFound = dirExistsD st (jbToolboxPath la)) ∧
    (CheckIDEs la { st with whereNvimFound := true } =
      CheckIDEs la { st with whereNvimFound := false }) := by
  refine ⟨fun h1 => ?_, fun h1 h2 => ?_, fun h1 h2 => ?_, rfl, rfl, rfl⟩
  · simp [CheckIDEs, h1]
  · simp [CheckIDEs, h1, h2]
  · simp [CheckIDEs, h1, h2]

/-- C9 witness: with both fixed VS Code locations present, the per-user path
wins and is recorded as locator. -/
theorem detection_order_witness :
    (CheckIDEs "L" detectStateW).vscodeFound = true ∧
    (CheckIDEs "L" detectStateW).vscodeBin = vsUserCodeCmd "L" :=
  (detection_order_amended "L" detectStateW).1 (by decide)

/-! ## Claim C10 -/

/-- C10: in every silent-mode run (silent or very-silent), the VS Code
extension-install `[Run]` entry never executes — it carries `skipifsilent`
— regardless of task selection and the detection check. -/
theorem skipifsilent_ok (m : SilentMode) (sel chk : Bool)
    (h : isSilentMode m = true) :
    runEntryExecutes vscodeRunEntry m sel chk = false := by
  have hc : RunFlag.skipifsilent ∈ vscodeRunEntry.flags := by decide
  simp [runEntryExecutes, h, hc]

/-- C10 witness: a `/SILENT` run with the vscode task selected and VS Code
detected still does not execute the entry. -/
theorem skipifsilent_witness :
    runEntryExecutes vscodeRunEntry .silent true true = false :=
  skipifsilent_ok .silent true true rfl

end Nebula
